import Mathlib

/-!
Verification of the loss-computation module `gematria/model/python/loss_utils.py`.

The module builds per-task masked error sequences from (N, T)-shaped prediction,
expected-output and mask tensors, and serves per-task loss vectors and percentile
statistics.  Numeric tensor values are embedded as rational numbers, 2-D tensors
as task-major lists of rows, and the lazily filled loss cache as explicit state
threaded through `lossTensorStep`.  Tensor-object identity (the TF graph node
returned by `loss_tensor`) is embedded by tagging every computed loss vector with
a fresh natural-number id.
-/

namespace LossUtils

instance exceptDecEq {e a : Type} [DecidableEq e] [DecidableEq a] :
    DecidableEq (Except e a) := fun x y =>
  match x, y with
  | .ok u, .ok v =>
      if h : u = v then .isTrue (by rw [h]) else .isFalse (fun hc => h (Except.ok.inj hc))
  | .error u, .error v =>
      if h : u = v then .isTrue (by rw [h]) else .isFalse (fun hc => h (Except.error.inj hc))
  | .ok _, .error _ => .isFalse (fun hc => Except.noConfusion hc)
  | .error _, .ok _ => .isFalse (fun hc => Except.noConfusion hc)

/-- Python exceptions raised by the module: `ValueError` and `NotImplementedError`. -/
inductive GematriaError where
  | valueError (msg : String)
  | notImplementedError (msg : String)
deriving DecidableEq

/-- The `options.LossType` enum (values listed in the options module). -/
inductive LossType where
  | MEAN_SQUARED_ERROR
  | MEAN_ABSOLUTE_ERROR
  | HUBER
  | RANKING_SOFTMAX_LOSS
deriving DecidableEq

/-- The `options.ErrorNormalization` enum. -/
inductive ErrorNormalization where
  | NONE
  | PERCENTAGE_ERROR
  | EXPECTED_VALUE_GREATER_THAN_ONE
deriving DecidableEq

/-- A Python value passed as the `loss_type` argument: either a member of the
`LossType` enum, or any other value (a sentinel outside the enum, reaching the
wildcard branch of the `match` statement in `loss_tensor`). -/
inductive LossTypeArg where
  | enum (t : LossType)
  | sentinel (tag : Nat)
deriving DecidableEq

/-- A Python value passed as the `normalization` argument: either a member of the
`ErrorNormalization` enum or a sentinel outside it (reaching the wildcard branch
of the normalization helpers). -/
inductive ErrorNormalizationArg where
  | enum (n : ErrorNormalization)
  | sentinel (tag : Nat)
deriving DecidableEq

/-- TensorFlow element dtypes relevant to the module. -/
inductive DType where
  | float32
  | bool
  | int32
deriving DecidableEq

/-- A (static) TensorFlow tensor shape: a list of dimensions, `none` for an
unknown dimension. -/
structure TensorShape where
  dims : List (Option Nat)
deriving DecidableEq

/-- Compatibility of single dimensions, as in `tf.TensorShape`: an unknown
dimension is compatible with anything, known dimensions must agree. -/
def dimCompatible : Option Nat → Option Nat → Bool
  | none, _ => true
  | _, none => true
  | some a, some b => a == b

/-- The semantics of `tf.TensorShape.is_compatible_with` for shapes of known
rank: equal rank and pairwise compatible dimensions. -/
def TensorShape.isCompatibleWith (s t : TensorShape) : Bool :=
  s.dims.length == t.dims.length &&
    (s.dims.zip t.dims).all (fun p => dimCompatible p.1 p.2)

/-- The validation block of `LossComputation.__init__` (source lines 54-74):
`output_values` must be 2-D, `expected_outputs` and `mask` must have shapes
compatible with it, and the mask dtype must be boolean; each violation raises a
`ValueError`. -/
def initValidation (outputShape expectedShape maskShape : TensorShape)
    (maskDtype : DType) : Except GematriaError Unit :=
  if outputShape.dims.length ≠ 2 then
    Except.error (GematriaError.valueError "output_values must be a 2D tensor")
  else if ¬ expectedShape.isCompatibleWith outputShape then
    Except.error (GematriaError.valueError
      "Expected expected_outputs.shape to be compatible with output_values.shape")
  else if ¬ maskShape.isCompatibleWith outputShape then
    Except.error (GematriaError.valueError
      "Expected mask.shape to be compatible with output_values.shape")
  else if maskDtype ≠ DType.bool then
    Except.error (GematriaError.valueError "Expected mask.dtype to be tf.dtypes.bool")
  else
    Except.ok ()

/-- The semantics of `tf.ragged.boolean_mask` on one row: keep the entries whose
mask value is true, in the original order. -/
def booleanMask (xs : List ℚ) (m : List Bool) : List ℚ :=
  (xs.zip m).filterMap (fun p => if p.2 then some p.1 else none)

/-- Boolean variant of `booleanMask`, used for the transposed mask itself. -/
def booleanMaskB (xs : List Bool) (m : List Bool) : List Bool :=
  (xs.zip m).filterMap (fun p => if p.2 then some p.1 else none)

/-- Column `c` of a row-major 2-D tensor. -/
def column [Inhabited α] (c : Nat) (rows : List (List α)) : List α :=
  rows.map (fun r => r.getD c default)

/-- The semantics of `tf.transpose` on a 2-D tensor with `numCols` columns. -/
def transpose [Inhabited α] (numCols : Nat) (rows : List (List α)) : List (List α) :=
  (List.range numCols).map (fun c => column c rows)

/-- The semantics of `tf.reduce_mean` along the ragged axis of one row. -/
def listMean (xs : List ℚ) : ℚ :=
  xs.sum / xs.length

/-- Piecewise-linear interpolation of a sorted sequence at a fractional index
`t`: with `i = floor t`, the value is `ys[i] + (t - i) * (ys[i+1] - ys[i])`. -/
def interpAt (ys : List ℚ) (t : ℚ) : ℚ :=
  let i := (⌊t⌋).toNat
  let a := ys.getD i 0
  let b := ys.getD (i + 1) a
  a + (t - (i : ℚ)) * (b - a)

/-- Modelled from the spec: `tfp.stats.percentile` of the external
tensorflow-probability library (not part of this repository), with the
linear-interpolation percentile semantics over the sorted data that the spec
prescribes: the percentile of rank `q` is the piecewise-linear interpolation of
the sorted sequence at index `q * (n - 1) / 100`. -/
def percentile (xs : List ℚ) (q : ℚ) : ℚ :=
  let ys := List.insertionSort (· ≤ ·) xs
  if ys.length = 0 then 0
  else interpAt ys (q * ((ys.length : ℚ) - 1) / 100)

/-- The body of `LossComputation._make_percentile_tensor`: empty ranks give an
empty tensor; otherwise the per-task percentile vectors are stacked along axis 1,
so that entry `[k][t]` is the percentile of rank `ranks[k]` of task `t`. -/
def make_percentile_tensor (numTasks : Nat) (values : List (List ℚ))
    (ranks : List ℚ) : List (List ℚ) :=
  if ranks.isEmpty then []
  else
    let perTask := (List.range numTasks).map
      (fun task => ranks.map (fun q => percentile (values.getD task []) q))
    transpose ranks.length perTask

/-- The derived state of a `LossComputation` object, as built by `__init__`
after validation: all tensors are task-major ragged lists of shape
(numTasks, variable). -/
structure LossComputation where
  numTasks : Nat
  percentileRanks : List ℚ
  output_values : List (List ℚ)
  expected_outputs : List (List ℚ)
  delta : List (List ℚ)
  squared_errors : List (List ℚ)
  absolute_errors : List (List ℚ)
  absolute_percentage_errors : List (List ℚ)
  squared_percentage_error : List (List ℚ)
  absolute_error_percentiles : List (List ℚ)
  absolute_percentage_error_percentiles : List (List ℚ)
  absolute_expected_outputs_or_one : List (List ℚ)
deriving DecidableEq

/-- The construction part of `LossComputation.__init__` (source lines 76-144):
transpose the inputs so the task axis comes first, apply the ragged boolean
mask, and derive the error tensors.  `output` and `expected` are row-major
(N, T) tensors; the task count is taken from the second dimension. -/
def mkLossComputation (output expected : List (List ℚ)) (mask : List (List Bool))
    (ranks : List ℚ) : LossComputation :=
  let numTasks := (output.headD []).length
  let maskT := transpose numTasks mask
  let output_values := List.zipWith booleanMask (transpose numTasks output) maskT
  let expected_outputs := List.zipWith booleanMask (transpose numTasks expected) maskT
  let delta := List.zipWith (List.zipWith (fun a b => a - b)) output_values expected_outputs
  let squared_errors := delta.map (List.map (fun d => d ^ 2))
  let absolute_errors := delta.map (List.map (fun d => |d|))
  let absolute_percentage_errors :=
    List.zipWith (List.zipWith (fun a e => a / e)) absolute_errors expected_outputs
  let squared_percentage_error := absolute_percentage_errors.map (List.map (fun e => e ^ 2))
  let absolute_expected_outputs_or_one := expected_outputs.map (List.map (fun e => max e 1))
  ⟨numTasks, ranks, output_values, expected_outputs, delta, squared_errors,
    absolute_errors, absolute_percentage_errors, squared_percentage_error,
    make_percentile_tensor numTasks absolute_errors ranks,
    make_percentile_tensor numTasks absolute_percentage_errors ranks,
    absolute_expected_outputs_or_one⟩

/-- The body of `LossComputation._squared_errors_witn_normalization` (the name
keeps the typo of the source): selects the squared-error tensor for a
normalization, raising `NotImplementedError` for values outside the enum. -/
def squared_errors_witn_normalization (lc : LossComputation)
    (normalization : ErrorNormalizationArg) : Except GematriaError (List (List ℚ)) :=
  match normalization with
  | .enum .NONE => Except.ok lc.squared_errors
  | .enum .PERCENTAGE_ERROR => Except.ok lc.squared_percentage_error
  | .enum .EXPECTED_VALUE_GREATER_THAN_ONE =>
      Except.ok (List.zipWith (List.zipWith (fun d m => (d / m) ^ 2))
        lc.delta lc.absolute_expected_outputs_or_one)
  | .sentinel _ =>
      Except.error (GematriaError.notImplementedError "Squared errors not implemented yet")

/-- The body of `LossComputation._absolute_errors_with_normalization`: selects
the absolute-error tensor for a normalization, raising `NotImplementedError` for
values outside the enum. -/
def absolute_errors_with_normalization (lc : LossComputation)
    (normalization : ErrorNormalizationArg) : Except GematriaError (List (List ℚ)) :=
  match normalization with
  | .enum .NONE => Except.ok lc.absolute_errors
  | .enum .PERCENTAGE_ERROR => Except.ok lc.absolute_percentage_errors
  | .enum .EXPECTED_VALUE_GREATER_THAN_ONE =>
      Except.ok (List.zipWith (List.zipWith (fun a m => a / m))
        lc.absolute_errors lc.absolute_expected_outputs_or_one)
  | .sentinel _ =>
      Except.error (GematriaError.notImplementedError "Absolute errors not implemented yet")

/-- The per-element Huber loss expression of the `HUBER` branch of
`loss_tensor`, with `huber_delta = 1.0`: `quadratic = min e 1`,
`linear = e - quadratic`, loss `= 0.5 * quadratic^2 + 1 * linear`. -/
def huberLossElement (e : ℚ) : ℚ :=
  let quadratic := min e 1
  let linear := e - quadratic
  (1 / 2) * quadratic ^ 2 + 1 * linear

/-- The compute part of `LossComputation.loss_tensor` (the `match loss_type`
statement): dispatches on the loss type, producing one scalar per task.
`rankingLoss` embeds the external tensorflow-ranking softmax loss as a black-box
function from (expected relevances, scores) to a scalar, applied once per task
to the whole masked sequence of the task. -/
def lossValue (rankingLoss : List ℚ → List ℚ → ℚ) (lc : LossComputation)
    (normalization : ErrorNormalizationArg) (lossType : LossTypeArg) :
    Except GematriaError (List ℚ) :=
  match lossType with
  | .enum .MEAN_SQUARED_ERROR =>
      match squared_errors_witn_normalization lc normalization with
      | .error e => .error e
      | .ok rows => .ok (rows.map listMean)
  | .enum .MEAN_ABSOLUTE_ERROR =>
      match absolute_errors_with_normalization lc normalization with
      | .error e => .error e
      | .ok rows => .ok (rows.map listMean)
  | .enum .HUBER =>
      match absolute_errors_with_normalization lc normalization with
      | .error e => .error e
      | .ok rows => .ok (rows.map (fun row => listMean (row.map huberLossElement)))
  | .enum .RANKING_SOFTMAX_LOSS =>
      .ok ((List.range lc.numTasks).map (fun task =>
        rankingLoss (lc.expected_outputs.getD task []) (lc.output_values.getD task [])))
  | .sentinel _ => .error (GematriaError.valueError "Unexpected loss type")

/-- A loss tensor as returned by `loss_tensor`: a graph-node identity tag plus
the per-task values. -/
abbrev LossTensor := Nat × List ℚ

/-- The memoization state of a `LossComputation` object: the `_loss_tensors`
cache keyed by `(loss_type, normalization)`, plus a counter supplying fresh
graph-node identities for newly built tensors. -/
structure LossState where
  nextId : Nat
  cache : List ((LossTypeArg × ErrorNormalizationArg) × LossTensor)
deriving DecidableEq

/-- The empty cache installed by `__init__` (`self._loss_tensors = dict()`). -/
def emptyLossState : LossState := ⟨0, []⟩

/-- The semantics of `dict.get` on the cache association list. -/
def cacheGet (cache : List ((LossTypeArg × ErrorNormalizationArg) × LossTensor))
    (k : LossTypeArg × ErrorNormalizationArg) : Option LossTensor :=
  match cache with
  | [] => none
  | e :: rest => if e.1 = k then some e.2 else cacheGet rest k

/-- One call of `LossComputation.loss_tensor`: look the `(loss_type,
normalization)` key up in the cache and return the cached tensor unchanged, or
compute the loss, store it under a fresh tensor identity and return it. -/
def lossTensorStep (rankingLoss : List ℚ → List ℚ → ℚ) (lc : LossComputation)
    (s : LossState) (normalization : ErrorNormalizationArg) (lossType : LossTypeArg) :
    Except GematriaError (LossTensor × LossState) :=
  match cacheGet s.cache (lossType, normalization) with
  | some entry => .ok (entry, s)
  | none =>
      match lossValue rankingLoss lc normalization lossType with
      | .error e => .error e
      | .ok v =>
          .ok ((s.nextId, v),
            ⟨s.nextId + 1, ((lossType, normalization), (s.nextId, v)) :: s.cache⟩)

/-- Invariant of reachable cache states: cached tensor identities are below the
fresh-id counter, cached vectors have one entry per task, and distinct keys hold
distinct tensor identities. -/
def StateInv (lc : LossComputation) (s : LossState) : Prop :=
  (∀ e ∈ s.cache, e.2.1 < s.nextId ∧ e.2.2.length = lc.numTasks) ∧
  (∀ e1 ∈ s.cache, ∀ e2 ∈ s.cache, e1.1 ≠ e2.1 → e1.2.1 ≠ e2.2.1)

/-- Claim-side view for C3: the per-task masked (prediction, expected) pairs,
the subsequence of pairs whose mask entry is true, in original order. -/
def maskedPairsSpec (ps es : List ℚ) (ms : List Bool) : List (ℚ × ℚ) :=
  ((ps.zip es).zip ms).filterMap (fun pem => if pem.2 then some pem.1 else none)

lemma getD_map_of_lt {α β : Type} (f : α → β) (l : List α) (i : Nat)
    (h : i < l.length) (d : β) (x : α) : (l.map f).getD i d = f (l.getD i x) := by
  induction l generalizing i with
  | nil => simp at h
  | cons a t ih =>
    cases i with
    | zero => rfl
    | succ n => simpa using ih n (by simpa using h)

lemma getD_zipWith_of_lt {α β γ : Type} (f : α → β → γ) (as : List α) (bs : List β)
    (i : Nat) (ha : i < as.length) (hb : i < bs.length) (d : γ) (x : α) (y : β) :
    (List.zipWith f as bs).getD i d = f (as.getD i x) (bs.getD i y) := by
  induction as generalizing bs i with
  | nil => simp at ha
  | cons a t ih =>
    cases bs with
    | nil => simp at hb
    | cons b u =>
      cases i with
      | zero => rfl
      | succ n => simpa using ih u n (by simpa using ha) (by simpa using hb)

lemma getD_range_map {α : Type} (f : Nat → α) (n i : Nat) (h : i < n) (d : α) :
    ((List.range n).map f).getD i d = f i := by
  rw [getD_map_of_lt f _ i (by simpa using h) d 0]
  congr 1
  rw [List.getD_eq_getElem _ _ (by simpa using h)]
  exact List.getElem_range i _

lemma transpose_getD {α : Type} [Inhabited α] (numCols : Nat) (rows : List (List α))
    (c : Nat) (h : c < numCols) : (transpose numCols rows).getD c [] = column c rows :=
  getD_range_map _ _ _ h _

/-- The lengths of all derived task-major tensors built by `__init__` equal the
number of tasks. -/
lemma mk_lengths (P E : List (List ℚ)) (M : List (List Bool)) (ranks : List ℚ) :
    (mkLossComputation P E M ranks).output_values.length
        = (mkLossComputation P E M ranks).numTasks ∧
      (mkLossComputation P E M ranks).expected_outputs.length
        = (mkLossComputation P E M ranks).numTasks ∧
      (mkLossComputation P E M ranks).delta.length
        = (mkLossComputation P E M ranks).numTasks ∧
      (mkLossComputation P E M ranks).squared_errors.length
        = (mkLossComputation P E M ranks).numTasks ∧
      (mkLossComputation P E M ranks).absolute_errors.length
        = (mkLossComputation P E M ranks).numTasks ∧
      (mkLossComputation P E M ranks).absolute_percentage_errors.length
        = (mkLossComputation P E M ranks).numTasks ∧
      (mkLossComputation P E M ranks).squared_percentage_error.length
        = (mkLossComputation P E M ranks).numTasks ∧
      (mkLossComputation P E M ranks).absolute_expected_outputs_or_one.length
        = (mkLossComputation P E M ranks).numTasks := by
  refine ⟨?_, ?_, ?_, ?_, ?_, ?_, ?_, ?_⟩ <;>
    simp [mkLossComputation, transpose, column]

lemma cacheGet_mem (cache : List ((LossTypeArg × ErrorNormalizationArg) × LossTensor))
    (k : LossTypeArg × ErrorNormalizationArg) (e : LossTensor)
    (h : cacheGet cache k = some e) : (k, e) ∈ cache := by
  induction cache with
  | nil => simp [cacheGet] at h
  | cons a rest ih =>
    by_cases hk : a.1 = k
    · simp only [cacheGet, if_pos hk] at h
      have ha : a = (k, e) := by
        cases a
        simp_all
      rw [ha]
      exact List.mem_cons_self _ _
    · simp only [cacheGet, if_neg hk] at h
      exact List.mem_cons_of_mem _ (ih h)

lemma booleanMask_zipWith_spec (f : ℚ → ℚ → ℚ) (ps es : List ℚ) (ms : List Bool)
    (he : es.length = ps.length) (hm : ms.length = ps.length) :
    List.zipWith f (booleanMask ps ms) (booleanMask es ms)
      = (maskedPairsSpec ps es ms).map (fun pe => f pe.1 pe.2) := by
  induction ps generalizing es ms with
  | nil =>
    have he0 : es = [] := List.length_eq_zero.mp he
    have hm0 : ms = [] := List.length_eq_zero.mp hm
    subst he0 hm0
    simp [booleanMask, maskedPairsSpec]
  | cons p pt ih =>
    cases es with
    | nil => simp at he
    | cons e et =>
      cases ms with
      | nil => simp at hm
      | cons m mt =>
        have he2 : et.length = pt.length := by simpa using he
        have hm2 : mt.length = pt.length := by simpa using hm
        cases m with
        | true =>
          simpa [booleanMask, maskedPairsSpec, List.filterMap_cons]
            using ih et mt he2 hm2
        | false =>
          simpa [booleanMask, maskedPairsSpec, List.filterMap_cons]
            using ih et mt he2 hm2

lemma sorted_getD_mono (ys : List ℚ) (hs : List.Sorted (· ≤ ·) ys) (i j : Nat)
    (hij : i ≤ j) (hj : j < ys.length) : ys.getD i 0 ≤ ys.getD j 0 := by
  rcases eq_or_lt_of_le hij with rfl | hlt
  · exact le_refl _
  · have hi : i < ys.length := lt_trans hlt hj
    rw [List.getD_eq_getElem _ _ hi, List.getD_eq_getElem _ _ hj]
    have := List.Sorted.rel_get_of_lt hs (a := ⟨i, hi⟩) (b := ⟨j, hj⟩) hlt
    simpa [List.get_eq_getElem] using this

lemma floor_toNat_cast_le {t : ℚ} (h0 : 0 ≤ t) : (((⌊t⌋).toNat : ℚ)) ≤ t := by
  have : (((⌊t⌋).toNat : ℤ) : ℚ) = ((⌊t⌋ : ℤ) : ℚ) := by
    rw [Int.toNat_of_nonneg (Int.floor_nonneg.mpr h0)]
  calc (((⌊t⌋).toNat : ℚ)) = ((⌊t⌋ : ℤ) : ℚ) := by push_cast at this ⊢; exact this
    _ ≤ t := Int.floor_le t

lemma lt_floor_toNat_add_one {t : ℚ} (h0 : 0 ≤ t) : t < (((⌊t⌋).toNat : ℚ)) + 1 := by
  have hcast : (((⌊t⌋).toNat : ℤ) : ℚ) = ((⌊t⌋ : ℤ) : ℚ) := by
    rw [Int.toNat_of_nonneg (Int.floor_nonneg.mpr h0)]
  have h1 : t < ((⌊t⌋ : ℤ) : ℚ) + 1 := Int.lt_floor_add_one t
  have h2 : (((⌊t⌋).toNat : ℚ)) = ((⌊t⌋ : ℤ) : ℚ) := by push_cast at hcast ⊢; exact hcast
  rw [h2]
  exact h1

lemma interpAt_lower (ys : List ℚ) (hs : List.Sorted (· ≤ ·) ys) (t : ℚ)
    (h0 : 0 ≤ t) (hi : (⌊t⌋).toNat < ys.length) :
    ys.getD (⌊t⌋).toNat 0 ≤ interpAt ys t := by
  simp only [interpAt]
  set i := (⌊t⌋).toNat with hidef
  set a := ys.getD i 0 with hadef
  have hfrac : 0 ≤ t - (i : ℚ) := sub_nonneg.mpr (floor_toNat_cast_le h0)
  have hab : a ≤ ys.getD (i + 1) a := by
    rcases lt_or_ge (i + 1) ys.length with hin | hout
    · rw [List.getD_eq_getElem _ _ hin, hadef, List.getD_eq_getElem _ _ hi]
      have := List.Sorted.rel_get_of_lt hs (a := ⟨i, hi⟩) (b := ⟨i + 1, hin⟩)
        (by exact Nat.lt_succ_self i)
      simpa [List.get_eq_getElem] using this
    · rw [List.getD_eq_default _ _ hout]
  nlinarith [mul_nonneg hfrac (sub_nonneg.mpr hab)]

lemma interpAt_le_next (ys : List ℚ) (hs : List.Sorted (· ≤ ·) ys) (t : ℚ)
    (h0 : 0 ≤ t) (hn : (⌊t⌋).toNat + 1 < ys.length) :
    interpAt ys t ≤ ys.getD ((⌊t⌋).toNat + 1) 0 := by
  simp only [interpAt]
  set i := (⌊t⌋).toNat with hidef
  set a := ys.getD i 0 with hadef
  have hi : i < ys.length := Nat.lt_of_succ_lt hn
  have hb : ys.getD (i + 1) a = ys.getD (i + 1) 0 := by
    rw [List.getD_eq_getElem _ _ hn, List.getD_eq_getElem _ _ hn]
  rw [hb]
  set b := ys.getD (i + 1) 0 with hbdef
  have hab : a ≤ b := sorted_getD_mono ys hs i (i + 1) (Nat.le_succ i) hn
  have hfrac1 : t - (i : ℚ) ≤ 1 := by
    have := lt_floor_toNat_add_one h0
    rw [← hidef] at this
    linarith
  nlinarith [mul_le_mul_of_nonneg_right hfrac1 (sub_nonneg.mpr hab)]

lemma interpAt_mono (ys : List ℚ) (hs : List.Sorted (· ≤ ·) ys) (t1 t2 : ℚ)
    (h0 : 0 ≤ t1) (h12 : t1 ≤ t2) (hn : t2 ≤ (ys.length : ℚ) - 1) :
    interpAt ys t1 ≤ interpAt ys t2 := by
  have h02 : 0 ≤ t2 := le_trans h0 h12
  have hi2le : (((⌊t2⌋).toNat : ℚ)) ≤ (ys.length : ℚ) - 1 :=
    le_trans (floor_toNat_cast_le h02) hn
  have hlen1 : 1 ≤ ys.length := by
    rcases Nat.eq_zero_or_pos ys.length with h | h
    · rw [h] at hi2le
      have hge : (0 : ℚ) ≤ (((⌊t2⌋).toNat : ℚ)) := by positivity
      push_cast at hi2le
      linarith
    · exact h
  have hi2 : (⌊t2⌋).toNat < ys.length := by
    have : (((⌊t2⌋).toNat : ℚ)) < (ys.length : ℚ) := by linarith
    exact_mod_cast this
  have hi12 : (⌊t1⌋).toNat ≤ (⌊t2⌋).toNat := Int.toNat_le_toNat (Int.floor_mono h12)
  rcases eq_or_lt_of_le hi12 with heq | hlt
  · simp only [interpAt, ← heq]
    set i := (⌊t1⌋).toNat with hidef
    set a := ys.getD i 0 with hadef
    set b := ys.getD (i + 1) a with hbdef
    have hi1lt : i < ys.length := by omega
    have hab : a ≤ b := by
      rw [hbdef]
      rcases lt_or_ge (i + 1) ys.length with hin | hout
      · rw [List.getD_eq_getElem _ _ hin, hadef, List.getD_eq_getElem _ _ hi1lt]
        have := List.Sorted.rel_get_of_lt hs (a := ⟨i, hi1lt⟩) (b := ⟨i + 1, hin⟩)
          (Nat.lt_succ_self i)
        simpa [List.get_eq_getElem] using this
      · rw [List.getD_eq_default _ _ hout]
    have hmul := mul_le_mul_of_nonneg_right (sub_le_sub_right h12 (i : ℚ))
      (sub_nonneg.mpr hab)
    linarith
  · calc interpAt ys t1
        ≤ ys.getD ((⌊t1⌋).toNat + 1) 0 :=
          interpAt_le_next ys hs t1 h0 (lt_of_le_of_lt (Nat.succ_le_of_lt hlt) hi2)
      _ ≤ ys.getD ((⌊t2⌋).toNat) 0 :=
          sorted_getD_mono ys hs _ _ (Nat.succ_le_of_lt hlt) hi2
      _ ≤ interpAt ys t2 := interpAt_lower ys hs t2 h02 hi2

/-- Monotonicity of the modelled percentile function in the rank, over any
nonempty data list, for ranks within [0, 100]. -/
lemma percentile_mono (xs : List ℚ) (hne : xs ≠ []) (q1 q2 : ℚ)
    (h0 : 0 ≤ q1) (h12 : q1 ≤ q2) (h100 : q2 ≤ 100) :
    percentile xs q1 ≤ percentile xs q2 := by
  simp only [percentile]
  set ys := List.insertionSort (· ≤ ·) xs with hys
  have hlen : ys.length = xs.length := List.length_insertionSort _ xs
  have hlen0 : ys.length ≠ 0 := by
    rw [hlen]
    exact Nat.pos_iff_ne_zero.mp (List.length_pos.mpr hne)
  rw [if_neg hlen0, if_neg hlen0]
  have hs : List.Sorted (· ≤ ·) ys := List.sorted_insertionSort _ xs
  have hlen1 : (1 : ℚ) ≤ (ys.length : ℚ) := by
    have : 1 ≤ ys.length := Nat.one_le_iff_ne_zero.mpr hlen0
    exact_mod_cast this
  have hl1 : (0 : ℚ) ≤ (ys.length : ℚ) - 1 := by linarith
  apply interpAt_mono ys hs
  · exact div_nonneg (mul_nonneg h0 hl1) (by norm_num)
  · have hm := mul_le_mul_of_nonneg_right h12 hl1
    linarith
  · rw [div_le_iff₀ (by norm_num : (0 : ℚ) < 100)]
    calc q2 * ((ys.length : ℚ) - 1) ≤ 100 * ((ys.length : ℚ) - 1) :=
          mul_le_mul_of_nonneg_right h100 (by linarith)
      _ = ((ys.length : ℚ) - 1) * 100 := by ring

/-- Entry `[k][t]` of the percentile tensor is the percentile of rank
`ranks[k]` over the masked values of task `t`. -/
lemma make_percentile_getD (numTasks : Nat) (values : List (List ℚ))
    (ranks : List ℚ) (k t : Nat) (hk : k < ranks.length) (ht : t < numTasks) :
    ((make_percentile_tensor numTasks values ranks).getD k []).getD t 0
      = percentile (values.getD t []) (ranks.getD k 0) := by
  have hne : ranks.isEmpty = false := by
    cases ranks with
    | nil => simp at hk
    | cons a l => rfl
  rw [make_percentile_tensor]
  simp only [hne, Bool.false_eq_true, if_false]
  rw [transpose_getD _ _ _ (by simpa using hk)]
  rw [column, getD_map_of_lt _ _ t (by simpa using ht) _ []]
  rw [getD_range_map _ _ _ ht]
  rw [getD_map_of_lt _ _ k (by simpa using hk) _ 0]

/-- Every successfully computed loss vector has one scalar per task. -/
lemma lossValue_length (P E : List (List ℚ)) (M : List (List Bool)) (ranks : List ℚ)
    (rf : List ℚ → List ℚ → ℚ) (n : ErrorNormalizationArg) (ty : LossTypeArg)
    (v : List ℚ) (h : lossValue rf (mkLossComputation P E M ranks) n ty = .ok v) :
    v.length = (mkLossComputation P E M ranks).numTasks := by
  obtain ⟨h1, h2, h3, h4, h5, h6, h7, h8⟩ := mk_lengths P E M ranks
  cases ty with
  | sentinel tag => simp [lossValue] at h
  | enum lt =>
    cases lt with
    | MEAN_SQUARED_ERROR =>
      cases n with
      | sentinel tag => simp [lossValue, squared_errors_witn_normalization] at h
      | enum nn =>
        cases nn with
        | NONE =>
          simp [lossValue, squared_errors_witn_normalization] at h
          rw [← h]
          simpa using h4
        | PERCENTAGE_ERROR =>
          simp [lossValue, squared_errors_witn_normalization] at h
          rw [← h]
          simpa using h7
        | EXPECTED_VALUE_GREATER_THAN_ONE =>
          simp [lossValue, squared_errors_witn_normalization] at h
          rw [← h]
          simp [List.length_zipWith, h3, h8]
    | MEAN_ABSOLUTE_ERROR =>
      cases n with
      | sentinel tag => simp [lossValue, absolute_errors_with_normalization] at h
      | enum nn =>
        cases nn with
        | NONE =>
          simp [lossValue, absolute_errors_with_normalization] at h
          rw [← h]
          simpa using h5
        | PERCENTAGE_ERROR =>
          simp [lossValue, absolute_errors_with_normalization] at h
          rw [← h]
          simpa using h6
        | EXPECTED_VALUE_GREATER_THAN_ONE =>
          simp [lossValue, absolute_errors_with_normalization] at h
          rw [← h]
          simp [List.length_zipWith, h5, h8]
    | HUBER =>
      cases n with
      | sentinel tag => simp [lossValue, absolute_errors_with_normalization] at h
      | enum nn =>
        cases nn with
        | NONE =>
          simp [lossValue, absolute_errors_with_normalization] at h
          rw [← h]
          simpa using h5
        | PERCENTAGE_ERROR =>
          simp [lossValue, absolute_errors_with_normalization] at h
          rw [← h]
          simpa using h6
        | EXPECTED_VALUE_GREATER_THAN_ONE =>
          simp [lossValue, absolute_errors_with_normalization] at h
          rw [← h]
          simp [List.length_zipWith, h5, h8]
    | RANKING_SOFTMAX_LOSS =>
      simp [lossValue] at h
      rw [← h]
      simp

/-- Claim C2: construction succeeds exactly when the predictions tensor is 2-D,
the expected-outputs and mask shapes are compatible with it, and the mask dtype
is boolean; on any violation a validation error is raised instead. -/
theorem init_validation_iff (o e m : TensorShape) (d : DType) :
    (initValidation o e m d).isOk = true ↔
      (o.dims.length = 2 ∧ e.isCompatibleWith o = true ∧ m.isCompatibleWith o = true
        ∧ d = DType.bool) := by
  unfold initValidation
  split_ifs with h1 h2 h3 h4 <;> simp_all [Except.isOk, Except.toBool]

/-- Claim C5: for every supported normalization, the HUBER loss is the per-task
mean of 0.5 * q^2 + 1.0 * l over the masked normalized absolute-error sequence,
where q = min(abs_err, 1) and l = abs_err - q. -/
theorem huber_formula (rf : List ℚ → List ℚ → ℚ) (lc : LossComputation)
    (n : ErrorNormalization) :
    (absolute_errors_with_normalization lc (.enum n)).isOk = true ∧
    lossValue rf lc (.enum n) (.enum .HUBER)
      = (absolute_errors_with_normalization lc (.enum n)).map
          (fun rows => rows.map (fun row => listMean (row.map (fun e =>
            (1 / 2) * (min e 1) ^ 2 + 1 * (e - min e 1))))) := by
  cases n <;> exact ⟨rfl, rfl⟩

/-- Claim C8: a loss_type value outside the LossType enum raises a ValueError at
request time; no default loss is computed. -/
theorem unknown_loss_type_raises (rf : List ℚ → List ℚ → ℚ) (lc : LossComputation)
    (n : ErrorNormalizationArg) (tag : Nat) :
    lossTensorStep rf lc emptyLossState n (.sentinel tag)
      = .error (.valueError "Unexpected loss type") := rfl

/-- Claim C9: with an empty percentile-rank sequence, both percentile properties
of a constructed LossComputation are empty rather than an error. -/
theorem empty_percentile_ranks (P E : List (List ℚ)) (M : List (List Bool)) :
    (mkLossComputation P E M []).absolute_error_percentiles = [] ∧
    (mkLossComputation P E M []).absolute_percentage_error_percentiles = [] := by
  constructor <;> simp [mkLossComputation, make_percentile_tensor]

/-- Claim C10: the RANKING_SOFTMAX_LOSS path ignores the normalization argument:
any two enum normalizations produce the same per-task loss values. -/
theorem ranking_ignores_normalization (rf : List ℚ → List ℚ → ℚ)
    (lc : LossComputation) (n1 n2 : ErrorNormalization) :
    lossValue rf lc (.enum n1) (.enum .RANKING_SOFTMAX_LOSS)
      = lossValue rf lc (.enum n2) (.enum .RANKING_SOFTMAX_LOSS) := rfl

/-- A trivial stand-in for the external ranking-loss function, used for concrete
instances; the claims hold for every such function. -/
def zeroRanking : List ℚ → List ℚ → ℚ := fun _ _ => 0

/-- Concrete instance with nontrivial expected values, used to exhibit the
behavior of the EXPECTED_VALUE_GREATER_THAN_ONE normalization. -/
def lcEx : LossComputation :=
  mkLossComputation [[2], [2]] [[0], [3]] [[true], [true]] []

/-- Claim C1, counterexample: on a concrete instance, loss_tensor succeeds (no
not-implemented error) for EXPECTED_VALUE_GREATER_THAN_ONE with both HUBER and
RANKING_SOFTMAX_LOSS. -/
theorem evgo_huber_succeeds_on_example :
    (lossTensorStep zeroRanking lcEx emptyLossState
      (.enum .EXPECTED_VALUE_GREATER_THAN_ONE) (.enum .HUBER)).isOk = true ∧
    (lossTensorStep zeroRanking lcEx emptyLossState
      (.enum .EXPECTED_VALUE_GREATER_THAN_ONE) (.enum .RANKING_SOFTMAX_LOSS)).isOk = true :=
  ⟨rfl, rfl⟩

/-- Claim C1, amended: with EXPECTED_VALUE_GREATER_THAN_ONE, HUBER succeeds
(the absolute-error helper divides by max(expected, 1)), RANKING_SOFTMAX_LOSS
succeeds and ignores the normalization; a not-implemented error arises only for
a normalization value outside the enum. -/
theorem evgo_huber_ranking_behavior (rf : List ℚ → List ℚ → ℚ)
    (lc : LossComputation) (tag : Nat) :
    (lossValue rf lc (.enum .EXPECTED_VALUE_GREATER_THAN_ONE) (.enum .HUBER)).isOk = true ∧
    lossValue rf lc (.enum .EXPECTED_VALUE_GREATER_THAN_ONE) (.enum .RANKING_SOFTMAX_LOSS)
      = lossValue rf lc (.enum .NONE) (.enum .RANKING_SOFTMAX_LOSS) ∧
    lossValue rf lc (.sentinel tag) (.enum .HUBER)
      = .error (.notImplementedError "Absolute errors not implemented yet") :=
  ⟨rfl, rfl, rfl⟩

/-- The masked per-task sequence built by `__init__` restricted to one task:
the delta row of task `t` is the in-order masked subsequence of the
(prediction, expected) pairs of column `t`, mapped to differences. -/
lemma mk_delta_getD (P E : List (List ℚ)) (M : List (List Bool)) (ranks : List ℚ)
    (t : Nat) (hE : E.length = P.length) (hM : M.length = P.length)
    (ht : t < (mkLossComputation P E M ranks).numTasks) :
    (mkLossComputation P E M ranks).delta.getD t []
      = (maskedPairsSpec (column t P) (column t E) (column t M)).map
          (fun pe => pe.1 - pe.2) := by
  simp only [mkLossComputation] at ht ⊢
  have hOV : t < (List.zipWith booleanMask (transpose (P.headD []).length P)
      (transpose (P.headD []).length M)).length := by
    simpa [List.length_zipWith, transpose, column] using ht
  have hEO : t < (List.zipWith booleanMask (transpose (P.headD []).length E)
      (transpose (P.headD []).length M)).length := by
    simpa [List.length_zipWith, transpose, column] using ht
  rw [getD_zipWith_of_lt (List.zipWith (fun a b => a - b)) _ _ t hOV hEO [] [] []]
  have hP : t < (transpose (P.headD []).length P).length := by
    simpa [transpose] using ht
  have he : t < (transpose (P.headD []).length E).length := by
    simpa [transpose] using ht
  have hm : t < (transpose (P.headD []).length M).length := by
    simpa [transpose] using ht
  rw [getD_zipWith_of_lt booleanMask _ _ t hP hm [] [] []]
  rw [getD_zipWith_of_lt booleanMask _ _ t he hm [] [] []]
  rw [transpose_getD _ _ _ ht, transpose_getD _ _ _ ht, transpose_getD _ _ _ ht]
  exact booleanMask_zipWith_spec (fun a b => a - b) (column t P) (column t E)
    (column t M) (by simp [column, hE]) (by simp [column, hM])

/-- Concrete instance of the spec example with the all-true mask. -/
def lcEx1 : LossComputation :=
  mkLossComputation [[1], [2], [3], [4]] [[1], [2], [3], [5]]
    [[true], [true], [true], [true]] []

/-- Concrete instance of the spec example with mask [T, F, T, F]. -/
def lcEx2 : LossComputation :=
  mkLossComputation [[1], [2], [3], [4]] [[1], [2], [3], [5]]
    [[true], [false], [true], [false]] []

/-- Claim C3: per-task error sequences are the in-order masked subsequences of
the (prediction, expected) pairs; on the spec examples, the all-true mask gives
delta [0,0,0,-1] with MSE = MAE = 1/4, and mask [T,F,T,F] keeps only elements 0
and 2, giving MAE 0. -/
theorem masked_error_sequences :
    (∀ (P E : List (List ℚ)) (M : List (List Bool)) (ranks : List ℚ) (t : Nat),
      E.length = P.length → M.length = P.length →
      t < (mkLossComputation P E M ranks).numTasks →
      (mkLossComputation P E M ranks).delta.getD t []
        = (maskedPairsSpec (column t P) (column t E) (column t M)).map
            (fun pe => pe.1 - pe.2)) ∧
    lcEx1.delta = [[0, 0, 0, -1]] ∧
    (∀ rf, lossValue rf lcEx1 (.enum .NONE) (.enum .MEAN_SQUARED_ERROR) = .ok [1 / 4]) ∧
    (∀ rf, lossValue rf lcEx1 (.enum .NONE) (.enum .MEAN_ABSOLUTE_ERROR) = .ok [1 / 4]) ∧
    lcEx2.output_values = [[1, 3]] ∧
    lcEx2.expected_outputs = [[1, 3]] ∧
    (∀ rf, lossValue rf lcEx2 (.enum .NONE) (.enum .MEAN_ABSOLUTE_ERROR) = .ok [0]) := by
  refine ⟨mk_delta_getD, ?_, ?_, ?_, ?_, ?_, ?_⟩
  · norm_num [lcEx1, mkLossComputation, transpose, column, booleanMask, List.range_succ,
      List.filterMap_cons]
  · intro rf
    norm_num [lcEx1, mkLossComputation, transpose, column, booleanMask, listMean,
      lossValue, squared_errors_witn_normalization, List.range_succ, List.filterMap_cons]
  · intro rf
    norm_num [lcEx1, mkLossComputation, transpose, column, booleanMask, listMean,
      lossValue, absolute_errors_with_normalization, List.range_succ, List.filterMap_cons]
  · norm_num [lcEx2, mkLossComputation, transpose, column, booleanMask, List.range_succ,
      List.filterMap_cons]
  · norm_num [lcEx2, mkLossComputation, transpose, column, booleanMask, List.range_succ,
      List.filterMap_cons]
  · intro rf
    norm_num [lcEx2, mkLossComputation, transpose, column, booleanMask, listMean,
      lossValue, absolute_errors_with_normalization, List.range_succ, List.filterMap_cons]

/-- Witness for C3: the masked-subsequence property applied to the concrete
all-true-mask example at task 0. -/
theorem masked_error_sequences_witness :
    (([[1], [2], [3], [5]] : List (List ℚ)).length
        = ([[1], [2], [3], [4]] : List (List ℚ)).length) ∧
    (mkLossComputation [[1], [2], [3], [4]] [[1], [2], [3], [5]]
        [[true], [true], [true], [true]] []).delta.getD 0 []
      = (maskedPairsSpec (column 0 [[1], [2], [3], [4]]) (column 0 [[1], [2], [3], [5]])
          (column 0 [[true], [true], [true], [true]])).map (fun pe => pe.1 - pe.2) :=
  ⟨rfl, masked_error_sequences.1 [[1], [2], [3], [4]] [[1], [2], [3], [5]]
    [[true], [true], [true], [true]] [] 0 rfl rfl
    (by norm_num [mkLossComputation])⟩

/-- Claim C6: with no normalization, whenever all masked absolute errors of a
task are at most 1, the task's Huber loss is half its mean squared error; and
each element with absolute delta above 1 contributes its absolute delta minus
one half. -/
theorem huber_vs_mse (P E : List (List ℚ)) (M : List (List Bool)) (ranks : List ℚ)
    (rf : List ℚ → List ℚ → ℚ) (t : Nat) (hv mv : List ℚ)
    (habs : ∀ e ∈ (mkLossComputation P E M ranks).absolute_errors.getD t [], e ≤ 1)
    (hh : lossValue rf (mkLossComputation P E M ranks) (.enum .NONE) (.enum .HUBER)
        = .ok hv)
    (hm : lossValue rf (mkLossComputation P E M ranks) (.enum .NONE)
        (.enum .MEAN_SQUARED_ERROR) = .ok mv) :
    hv.getD t 0 = (1 / 2) * mv.getD t 0 ∧
    (∀ d : ℚ, 1 < |d| → huberLossElement |d| = |d| - 1 / 2) := by
  constructor
  · have hhv : hv = (mkLossComputation P E M ranks).absolute_errors.map
        (fun row => listMean (row.map huberLossElement)) := by
      simp [lossValue, absolute_errors_with_normalization] at hh
      exact hh.symm
    have hmv : mv = (mkLossComputation P E M ranks).squared_errors.map listMean := by
      simp [lossValue, squared_errors_witn_normalization] at hm
      exact hm.symm
    subst hhv hmv
    have habsf : (mkLossComputation P E M ranks).absolute_errors
        = (mkLossComputation P E M ranks).delta.map (List.map (fun d => |d|)) := rfl
    have hsqf : (mkLossComputation P E M ranks).squared_errors
        = (mkLossComputation P E M ranks).delta.map (List.map (fun d => d ^ 2)) := rfl
    rcases lt_or_ge t (mkLossComputation P E M ranks).delta.length with hlt | hge
    · have hlt1 : t < (mkLossComputation P E M ranks).absolute_errors.length := by
        rw [habsf]
        simpa using hlt
      have hlt2 : t < (mkLossComputation P E M ranks).squared_errors.length := by
        rw [hsqf]
        simpa using hlt
      rw [getD_map_of_lt _ _ t hlt1 0 []]
      rw [getD_map_of_lt _ _ t hlt2 0 []]
      rw [habsf] at habs ⊢
      rw [hsqf]
      rw [getD_map_of_lt _ _ t hlt []] at habs
      rw [getD_map_of_lt _ _ t hlt [] []]
      rw [getD_map_of_lt _ _ t hlt [] []]
      set row := (mkLossComputation P E M ranks).delta.getD t [] with hrow
      have habsr : ∀ d ∈ row, |d| ≤ 1 := fun d hd =>
        habs _ (List.mem_map_of_mem _ hd)
      rw [List.map_map]
      have hcong : row.map (huberLossElement ∘ fun d => |d|)
          = row.map (fun d => (1 / 2) * d ^ 2) := by
        apply List.map_congr_left
        intro d hd
        have h1 : |d| ≤ 1 := habsr d hd
        simp only [Function.comp, huberLossElement, min_eq_left h1]
        rw [sq_abs]
        ring
      rw [hcong]
      rw [listMean, listMean]
      rw [List.sum_map_mul_left row (fun d => d ^ 2) ((1 : ℚ) / 2)]
      rw [List.length_map, List.length_map]
      rw [mul_div_assoc]
    · have hge1 : (mkLossComputation P E M ranks).absolute_errors.length ≤ t := by
        rw [habsf]
        simpa using hge
      have hge2 : (mkLossComputation P E M ranks).squared_errors.length ≤ t := by
        rw [hsqf]
        simpa using hge
      rw [List.getD_eq_default _ _ (by simpa using hge1)]
      rw [List.getD_eq_default _ _ (by simpa using hge2)]
      norm_num
  · intro d hd
    have h1 : (1 : ℚ) ≤ |d| := le_of_lt hd
    simp only [huberLossElement, min_eq_right h1]
    ring

/-- Witness for C6: the Huber/MSE relation applied at a concrete instance whose
absolute errors are 0 and 1 (Huber loss 1/4, MSE 1/2). -/
theorem huber_vs_mse_witness :
    (∀ e ∈ (mkLossComputation [[1], [2]] [[1], [3]] [[true], [true]] []).absolute_errors.getD
        0 [], e ≤ 1) ∧
    (([1 / 4] : List ℚ).getD 0 0 = (1 / 2) * (([1 / 2] : List ℚ).getD 0 0) ∧
      (∀ d : ℚ, 1 < |d| → huberLossElement |d| = |d| - 1 / 2)) := by
  have habs : ∀ e ∈ (mkLossComputation [[1], [2]] [[1], [3]]
      [[true], [true]] []).absolute_errors.getD 0 [], e ≤ 1 := by
    norm_num [mkLossComputation, transpose, column, booleanMask, List.range_succ,
      List.filterMap_cons]
  refine ⟨habs, huber_vs_mse [[1], [2]] [[1], [3]] [[true], [true]] [] zeroRanking 0
    [1 / 4] [1 / 2] habs ?_ ?_⟩
  · norm_num [mkLossComputation, transpose, column, booleanMask, listMean, lossValue,
      absolute_errors_with_normalization, huberLossElement, List.range_succ,
      List.filterMap_cons]
  · norm_num [mkLossComputation, transpose, column, booleanMask, listMean, lossValue,
      squared_errors_witn_normalization, List.range_succ, List.filterMap_cons]

/-- Claim C7: for two configured percentile ranks r1 < r2 (both in [0, 100]),
the percentile value at r1 is at most the percentile value at r2, per task, in
both the absolute-error and absolute-percentage-error percentile tensors. -/
theorem percentile_monotone_per_task (P E : List (List ℚ)) (M : List (List Bool))
    (ranks : List ℚ) (k1 k2 t : Nat)
    (hk1 : k1 < ranks.length) (hk2 : k2 < ranks.length)
    (h0 : 0 ≤ ranks.getD k1 0) (hlt : ranks.getD k1 0 < ranks.getD k2 0)
    (h100 : ranks.getD k2 0 ≤ 100)
    (ht : t < (mkLossComputation P E M ranks).numTasks)
    (hne1 : (mkLossComputation P E M ranks).absolute_errors.getD t [] ≠ [])
    (hne2 : (mkLossComputation P E M ranks).absolute_percentage_errors.getD t [] ≠ []) :
    (((mkLossComputation P E M ranks).absolute_error_percentiles.getD k1 []).getD t 0
      ≤ ((mkLossComputation P E M ranks).absolute_error_percentiles.getD k2 []).getD t 0) ∧
    (((mkLossComputation P E M ranks).absolute_percentage_error_percentiles.getD
        k1 []).getD t 0
      ≤ ((mkLossComputation P E M ranks).absolute_percentage_error_percentiles.getD
        k2 []).getD t 0) := by
  have hp1 : (mkLossComputation P E M ranks).absolute_error_percentiles
      = make_percentile_tensor (mkLossComputation P E M ranks).numTasks
          (mkLossComputation P E M ranks).absolute_errors ranks := rfl
  have hp2 : (mkLossComputation P E M ranks).absolute_percentage_error_percentiles
      = make_percentile_tensor (mkLossComputation P E M ranks).numTasks
          (mkLossComputation P E M ranks).absolute_percentage_errors ranks := rfl
  constructor
  · rw [hp1, make_percentile_getD _ _ _ k1 t hk1 ht, make_percentile_getD _ _ _ k2 t hk2 ht]
    exact percentile_mono _ hne1 _ _ h0 (le_of_lt hlt) h100
  · rw [hp2, make_percentile_getD _ _ _ k1 t hk1 ht, make_percentile_getD _ _ _ k2 t hk2 ht]
    exact percentile_mono _ hne2 _ _ h0 (le_of_lt hlt) h100

/-- Witness for C7: percentile monotonicity applied to a concrete instance with
ranks 0 and 100 and absolute errors 0 and 2 in task 0. -/
theorem percentile_monotone_per_task_witness :
    ((0 : ℚ) ≤ ([0, 100] : List ℚ).getD 0 0 ∧
      ([0, 100] : List ℚ).getD 0 0 < ([0, 100] : List ℚ).getD 1 0) ∧
    ((((mkLossComputation [[1], [3]] [[1], [1]] [[true], [true]]
          [0, 100]).absolute_error_percentiles.getD 0 []).getD 0 0
        ≤ ((mkLossComputation [[1], [3]] [[1], [1]] [[true], [true]]
          [0, 100]).absolute_error_percentiles.getD 1 []).getD 0 0) ∧
      (((mkLossComputation [[1], [3]] [[1], [1]] [[true], [true]]
          [0, 100]).absolute_percentage_error_percentiles.getD 0 []).getD 0 0
        ≤ ((mkLossComputation [[1], [3]] [[1], [1]] [[true], [true]]
          [0, 100]).absolute_percentage_error_percentiles.getD 1 []).getD 0 0)) := by
  refine ⟨⟨by norm_num, by norm_num⟩,
    percentile_monotone_per_task [[1], [3]] [[1], [1]] [[true], [true]] [0, 100]
      0 1 0 (by norm_num) (by norm_num) (by norm_num) (by norm_num) (by norm_num)
      (by norm_num [mkLossComputation]) ?_ ?_⟩
  · norm_num [mkLossComputation, transpose, column, booleanMask, List.range_succ,
      List.filterMap_cons, List.cons_ne_nil]
  · norm_num [mkLossComputation, transpose, column, booleanMask, List.range_succ,
      List.filterMap_cons, List.cons_ne_nil]

/-- Claim C4: from any reachable cache state, a repeated call with the same
(loss_type, normalization) key returns the identical cached tensor and leaves
the state unchanged; calls with different keys return tensors with distinct
identities; and every returned vector has one scalar per task. -/
theorem loss_tensor_memoization (P E : List (List ℚ)) (M : List (List Bool))
    (ranks : List ℚ) (rf : List ℚ → List ℚ → ℚ) (s : LossState)
    (ty1 ty2 : LossTypeArg) (n1 n2 : ErrorNormalizationArg)
    (t1 t2 : LossTensor) (s1 s2 : LossState)
    (hinv : StateInv (mkLossComputation P E M ranks) s)
    (h1 : lossTensorStep rf (mkLossComputation P E M ranks) s n1 ty1 = .ok (t1, s1))
    (hne : (ty1, n1) ≠ (ty2, n2))
    (h2 : lossTensorStep rf (mkLossComputation P E M ranks) s1 n2 ty2 = .ok (t2, s2)) :
    lossTensorStep rf (mkLossComputation P E M ranks) s1 n1 ty1 = .ok (t1, s1) ∧
    t1.2.length = (mkLossComputation P E M ranks).numTasks ∧
    t2.2.length = (mkLossComputation P E M ranks).numTasks ∧
    t1.1 ≠ t2.1 := by
  obtain ⟨hbound, hinj⟩ := hinv
  rcases hget1 : cacheGet s.cache (ty1, n1) with _ | e1
  · -- first call misses the cache and computes a fresh tensor
    rcases hval1 : lossValue rf (mkLossComputation P E M ranks) n1 ty1 with err | v1
    · rw [lossTensorStep, hget1, hval1] at h1
      exact absurd h1 (by simp)
    · rw [lossTensorStep, hget1, hval1] at h1
      simp only [Except.ok.injEq, Prod.mk.injEq] at h1
      obtain ⟨ht1, hs1⟩ := h1
      subst ht1 hs1
      have hlen1 : v1.length = (mkLossComputation P E M ranks).numTasks :=
        lossValue_length P E M ranks rf n1 ty1 v1 hval1
      have hstep : lossTensorStep rf (mkLossComputation P E M ranks)
          ⟨s.nextId + 1, ((ty1, n1), (s.nextId, v1)) :: s.cache⟩ n1 ty1
          = .ok ((s.nextId, v1),
              ⟨s.nextId + 1, ((ty1, n1), (s.nextId, v1)) :: s.cache⟩) := by
        simp [lossTensorStep, cacheGet]
      refine ⟨hstep, hlen1, ?_⟩
      rw [lossTensorStep] at h2
      simp only [cacheGet] at h2
      rw [if_neg (by simpa using hne)] at h2
      rcases hget2 : cacheGet s.cache (ty2, n2) with _ | e2
      · rw [hget2] at h2
        rcases hval2 : lossValue rf (mkLossComputation P E M ranks) n2 ty2 with err | v2
        · rw [hval2] at h2
          exact absurd h2 (by simp)
        · rw [hval2] at h2
          simp only [Except.ok.injEq, Prod.mk.injEq] at h2
          obtain ⟨ht2, hs2⟩ := h2
          subst ht2 hs2
          refine ⟨lossValue_length P E M ranks rf n2 ty2 v2 hval2, by simp⟩
      · rw [hget2] at h2
        simp only [Except.ok.injEq, Prod.mk.injEq] at h2
        obtain ⟨ht2, hs2⟩ := h2
        subst ht2 hs2
        have hmem2 : ((ty2, n2), e2) ∈ s.cache := cacheGet_mem _ _ _ hget2
        have hb2 : e2.1 < s.nextId := (hbound _ hmem2).1
        have hl2 : e2.2.length = (mkLossComputation P E M ranks).numTasks :=
          (hbound _ hmem2).2
        exact ⟨hl2, by simp only [Prod.fst]; omega⟩
  · -- first call hits the cache
    rw [lossTensorStep, hget1] at h1
    simp only [Except.ok.injEq, Prod.mk.injEq] at h1
    obtain ⟨ht1, hs1⟩ := h1
    subst ht1 hs1
    have hmem1 : ((ty1, n1), e1) ∈ s.cache := cacheGet_mem _ _ _ hget1
    have hb1 : e1.1 < s.nextId := (hbound _ hmem1).1
    have hlen1 : e1.2.length = (mkLossComputation P E M ranks).numTasks :=
      (hbound _ hmem1).2
    have hstep : lossTensorStep rf (mkLossComputation P E M ranks) s n1 ty1
        = .ok (e1, s) := by
      rw [lossTensorStep, hget1]
    refine ⟨hstep, hlen1, ?_⟩
    rcases hget2 : cacheGet s.cache (ty2, n2) with _ | e2
    · rw [lossTensorStep, hget2] at h2
      rcases hval2 : lossValue rf (mkLossComputation P E M ranks) n2 ty2 with err | v2
      · rw [hval2] at h2
        exact absurd h2 (by simp)
      · rw [hval2] at h2
        simp only [Except.ok.injEq, Prod.mk.injEq] at h2
        obtain ⟨ht2, hs2⟩ := h2
        subst ht2 hs2
        refine ⟨lossValue_length P E M ranks rf n2 ty2 v2 hval2, ?_⟩
        simp only [Prod.fst]
        omega
    · rw [lossTensorStep, hget2] at h2
      simp only [Except.ok.injEq, Prod.mk.injEq] at h2
      obtain ⟨ht2, hs2⟩ := h2
      subst ht2 hs2
      have hmem2 : ((ty2, n2), e2) ∈ s.cache := cacheGet_mem _ _ _ hget2
      exact ⟨(hbound _ hmem2).2, hinj _ hmem1 _ hmem2 (by simpa using hne)⟩

/-- Witness for C4: the memoization theorem applied to a concrete instance and
the keys (MEAN_SQUARED_ERROR, NONE) and (MEAN_ABSOLUTE_ERROR, NONE), starting
from the empty cache. -/
theorem loss_tensor_memoization_witness :
    StateInv (mkLossComputation [[1]] [[2]] [[true]] []) emptyLossState ∧
    (((0 : Nat), ([1] : List ℚ)).2.length
        = (mkLossComputation [[1]] [[2]] [[true]] []).numTasks ∧
      ((0 : Nat), ([1] : List ℚ)).1 ≠ ((1 : Nat), ([1] : List ℚ)).1) := by
  have hinv : StateInv (mkLossComputation [[1]] [[2]] [[true]] []) emptyLossState := by
    constructor
    · intro e he
      exact absurd he (List.not_mem_nil e)
    · intro e1 he1 e2 he2 hk
      exact absurd he1 (List.not_mem_nil e1)
  have h := loss_tensor_memoization [[1]] [[2]] [[true]] [] zeroRanking emptyLossState
    (.enum .MEAN_SQUARED_ERROR) (.enum .MEAN_ABSOLUTE_ERROR) (.enum .NONE) (.enum .NONE)
    ((0 : Nat), ([1] : List ℚ)) ((1 : Nat), ([1] : List ℚ))
    ⟨1, [((LossTypeArg.enum .MEAN_SQUARED_ERROR, ErrorNormalizationArg.enum .NONE),
      ((0 : Nat), ([1] : List ℚ)))]⟩
    ⟨2, [((LossTypeArg.enum .MEAN_ABSOLUTE_ERROR, ErrorNormalizationArg.enum .NONE),
        ((1 : Nat), ([1] : List ℚ))),
      ((LossTypeArg.enum .MEAN_SQUARED_ERROR, ErrorNormalizationArg.enum .NONE),
        ((0 : Nat), ([1] : List ℚ)))]⟩
    hinv
    (by norm_num [mkLossComputation, transpose, column, booleanMask, listMean, lossValue,
      lossTensorStep, cacheGet, emptyLossState, squared_errors_witn_normalization,
      List.range_succ, List.filterMap_cons])
    (by decide)
    (by norm_num +decide [mkLossComputation, transpose, column, booleanMask, listMean,
      lossValue, lossTensorStep, cacheGet, absolute_errors_with_normalization,
      List.range_succ, List.filterMap_cons])
  exact ⟨hinv, h.2.1, h.2.2.2⟩

end LossUtils
